import Mathlib

/-!
Verification of the `pyrfu` space-physics analysis library against its
specification.  The Python functions under `src/pyrfu` are shallowly
embedded: labeled arrays become Lean structures over rational or real
numbers, in-place mutation becomes explicit state passing, and runtime
errors become `Except` / `Option` values.
-/

namespace Pyrfu

/-! ### `pyrf.extend_tint` (src/pyrfu/pyrf/extend_tint.py) -/

/-- Rendering an instant back to an ISO string with the default millisecond
precision, as done by `Time(bound, format="unix").iso` in `extend_tint`:
the instant, modelled as rational unix seconds, is quantized to the
nearest millisecond. -/
def isoMs (t : ℚ) : ℚ := (round (1000 * t) : ℤ) / 1000

/-- Shallow embedding of `pyrf.extend_tint` (src/pyrfu/pyrf/extend_tint.py,
lines 47-62).  The two bounds of `tint` are given already parsed as rational
unix seconds (`date_parse` composed with `Time(...).unix`); `ext = none`
models the `ext is None` default `[-60, 60]`; the result is the pair of
shifted instants as rendered back at ISO millisecond precision. -/
def extend_tint (t1 t2 : ℚ) (ext : Option (ℚ × ℚ)) : ℚ × ℚ :=
  let e := ext.getD (-60, 60)
  (isoMs (t1 + e.1), isoMs (t2 + e.2))

/-! ### `pyrf.medfilt` (src/build/lib/pyrfu/pyrf/medfilt.py) -/

/-- The window-length argument of `pyrf.medfilt`: the Python code accepts a
float or an int for `n_pts`; floats are modelled as rationals. -/
inductive NPts where
  | float (q : ℚ)
  | int (z : ℤ)

/-- Window-length adjustment performed by `pyrf.medfilt`
(src/build/lib/pyrfu/pyrf/medfilt.py, lines 62-66): a float `n_pts` is
floored to an integer (`np.floor(n_pts).astype(int)`), then an even value
is incremented by one (`if n_pts % 2 == 0: n_pts += 1`; the second
`if not n_pts % 2: n_pts += 1` at lines 84-85 never fires since the value
is odd by then). -/
def adjust_n_pts (n : NPts) : ℤ :=
  let m : ℤ := match n with
    | .float q => ⌊q⌋
    | .int z => z
  if m % 2 = 0 then m + 1 else m

/-- A labeled time series as consumed by `pyrf.medfilt`: the data is stored
as one rational list per component (the Python code filters
`inp_data[:, i]` for each component `i`; the reshape of a 3x3 tensor series
to nine components and back, and the squeeze of a single component, are
modelled as the identity on the list of components).  `dims`, `coords` and
`attrs` are carried as opaque labels. -/
structure TSeries where
  dims : List String
  coords : List (String × List ℚ)
  attrs : List (String × String)
  data : List (List ℚ)

/-- Shallow embedding of `pyrf.medfilt` (src/build/lib/pyrfu/pyrf/medfilt.py,
lines 53-99).  `filt` models `scipy.signal.medfilt`, the external filtering
routine, applied to each component with the adjusted window length; the
output is rebuilt with the coords and dims of the input (line 96) and the
input's attrs (line 97). -/
def medfilt (filt : List ℚ → ℤ → List ℚ) (inp : TSeries) (n_pts : NPts) : TSeries :=
  { dims := inp.dims
    coords := inp.coords
    attrs := inp.attrs
    data := inp.data.map (fun c => filt c (adjust_n_pts n_pts)) }

/-! ### `pyrf.match_phibe_v` (src/pyrfu/pyrf/match_phibe_v.py) and
`mms.calculate_epsilon` (src/pyrfu/mms/calculate_epsilon.py) -/

/-- Shallow embedding of `pyrf.match_phibe_v`
(src/pyrfu/pyrf/match_phibe_v.py, lines 57-76).  Arrays are rational lists;
`b_z` enters only through its first column `bz0`; the physical constants
`constants.mu_0` and `constants.elementary_charge` are the parameters `mu0`
and `qe`.  The Python code mutates the density argument in place
(`n.data *= 1e6`, line 62), so the embedding passes that state explicitly:
it returns the potential `phi_b` (as a list of columns, one per density,
line 70), the potential `phi_e` (as a list of columns, one per velocity,
line 69), and the final state of `n`.  The correlation matrix, a further
scalar reduction (a sum of decimal logarithms) of `phi_b` and `phi_e`, is
not needed by the properties below. -/
def match_phibe_v (mu0 qe b0 : ℚ) (bz0 int_e_dt n v : List ℚ) :
    List (List ℚ) × List (List ℚ) × List ℚ :=
  let n' := n.map (· * 1000000)
  let phi_e := v.map (fun vp => int_e_dt.map (· * vp))
  let phi_b := n'.map (fun nk => bz0.map (fun bzt => bzt * b0 * (1 / 10 ^ 18) / (mu0 * qe * nk)))
  (phi_b, phi_e, n')

/-- State effect of `mms.calculate_epsilon`
(src/pyrfu/mms/calculate_epsilon.py, lines 66-67) on its two distribution
arguments: `model_vdf /= 1e18` and `vdf /= 1e18` divide the caller's
datasets in place.  The distributions' data values are modelled as flat
rational lists; the pair returned is the final state of `(vdf, model_vdf)`. -/
def calculate_epsilon_vdf_state (vdf model_vdf : List ℚ) : List ℚ × List ℚ :=
  (vdf.map (· / 10 ^ 18), model_vdf.map (· / 10 ^ 18))

/-! ### `pyrf.time_clip` (src/pyrfu/pyrf/time_clip.py) -/

/-- A Python runtime error raised by argument validation. -/
inductive PyError where
  | typeError (msg : String)
  | valueError (msg : String)
  | attributeError (msg : String)
deriving DecidableEq

/-- The runtime type of the `tint` argument of `pyrf.time_clip`: an
`xarray.DataArray` (with the instants of its time coordinate), a
`numpy.ndarray` whose elements are `datetime.datetime` objects, a
`numpy.ndarray` whose elements are `numpy.datetime64` values, a
`numpy.ndarray` of any other element type, a list of strings (given by
their parsed instants), or any other object.  Instants are integer
nanosecond timestamps. -/
inductive TintArg where
  | dataArrayT (times : List ℤ)
  | ndarrayOfDatetime (times : List ℤ)
  | ndarrayOfDatetime64 (times : List ℤ)
  | ndarrayOfOther
  | listOfStr (times : List ℤ)
  | otherT

/-- Argument validation and bound extraction of `pyrf.time_clip`
(src/pyrfu/pyrf/time_clip.py, lines 36-53).  A non-`DataArray` `inp` raises
`TypeError('Input must be a TSeries')`.  In the `numpy.ndarray` branch the
code tests whether the first and last elements are `datetime.datetime`
objects and raises `TypeError('Values must be in Datetime64')` otherwise —
in particular for an array of `numpy.datetime64` values; when the elements
ARE `datetime.datetime` it evaluates `tint.time[0]` (line 44), which raises
`AttributeError` because a `numpy.ndarray` has no attribute `time`. -/
def time_clip_bounds (inpIsDataArray : Bool) (tint : TintArg) : Except PyError (ℤ × ℤ) :=
  if !inpIsDataArray then .error (.typeError "Input must be a TSeries")
  else
    match tint with
    | .dataArrayT ts => .ok (ts.headD 0, ts.getLastD 0)
    | .ndarrayOfDatetime _ =>
        .error (.attributeError "ndarray object has no attribute time")
    | .ndarrayOfDatetime64 _ => .error (.typeError "Values must be in Datetime64")
    | .ndarrayOfOther => .error (.typeError "Values must be in Datetime64")
    | .listOfStr ts => .ok (ts.headD 0, ts.getLastD 0)
    | .otherT => .error (.typeError "Invalid type of time interval")

/-- The runtime type of the argument of `pyrf.norm`. -/
inductive NormArg where
  | pyNone
  | dataArrayN
  | otherN

/-- Argument validation of `pyrf.norm` (src/pyrfu/pyrf/norm.py, lines
37-41): `None` raises `ValueError`, any other non-`DataArray` raises
`TypeError`. -/
def norm_check (inp : NormArg) : Except PyError Unit :=
  match inp with
  | .pyNone => .error (.valueError "norm require one argument")
  | .dataArrayN => .ok ()
  | .otherN => .error (.typeError "Input must be a DataArray")

/-- A labeled time-indexed array as consumed by `pyrf.time_clip`: a time
coordinate of integer nanosecond instants, one data sample per instant, and
the remaining labels carried opaquely. -/
structure DataArray (α : Type) where
  time : List ℤ
  data : List α
  nonTimeCoords : List (String × List ℚ)
  dims : List String
  attrs : List (String × String)
  timeAttrs : List (String × String)

/-- `bisect.bisect_left` on a sorted list: the number of elements smaller
than `x`. -/
def bisect_left (l : List ℤ) (x : ℤ) : ℕ := l.countP (fun t => decide (t < x))

/-- `bisect.bisect_right` on a sorted list: the number of elements not
larger than `x`. -/
def bisect_right (l : List ℤ) (x : ℤ) : ℕ := l.countP (fun t => decide (t ≤ x))

/-- Shallow embedding of the clipping part of `pyrf.time_clip`
(src/pyrfu/pyrf/time_clip.py, lines 55-67) for a list time interval whose
two parsed bounds are `t_start` and `t_stop`: the time coordinate and the
data are sliced between `bisect_left` of the start and `bisect_right` of
the stop (`inp.data[idx_min:idx_max]`), while the non-time coordinates,
the dims, the attrs and the time attrs of the input are kept. -/
def time_clip {α : Type} (inp : DataArray α) (t_start t_stop : ℤ) : DataArray α :=
  let i := bisect_left inp.time t_start
  let j := bisect_right inp.time t_stop
  { time := (inp.time.take j).drop i
    data := (inp.data.take j).drop i
    nonTimeCoords := inp.nonTimeCoords
    dims := inp.dims
    attrs := inp.attrs
    timeAttrs := inp.timeAttrs }

/-! ### `mms.get_feeps_omni` (src/pyrfu/mms/get_feeps_omni.py) -/

/-- A floating-point flux sample: `none` models IEEE NaN (the only NaNs in
`get_feeps_omni` are the ones introduced by the contamination mask),
`some q` a finite value. -/
abbrev EFloat := Option ℚ

/-- `np.nanmean` along the eye axis (src/pyrfu/mms/get_feeps_omni.py,
line 78): the mean of the non-NaN entries, NaN for an all-NaN slice (the
`RuntimeWarning` for that case is suppressed at lines 76-77). -/
def nanmean (l : List EFloat) : EFloat :=
  let v := l.filterMap id
  if v.length = 0 then none else some (v.sum / v.length)

/-- Entry of a time-by-energy array at row `t`, column `ch`. -/
def entry (m : List (List EFloat)) (t ch : ℕ) : EFloat := (m.getD t []).getD ch none

/-- Sun-contamination masking of one eye in `get_feeps_omni`
(src/pyrfu/mms/get_feeps_omni.py, lines 48-52 and 60-64): the first energy
column of the eye's mask is tiled across all energy columns
(`mask.data = np.tile(mask.data[:, 0], (mask.shape[1], 1)).T`), and the
flux samples where the tiled mask equals 1 are set to NaN
(`top.data[mask.data == 1] = np.nan`): a time row whose column-0 mask value
is 1 becomes NaN across all channels. -/
def mask_eye (flux : List (List EFloat)) (mask : List (List ℚ)) : List (List EFloat) :=
  (flux.zip mask).map (fun fm => if fm.2.headD 0 = 1 then fm.1.map (fun _ => none) else fm.1)

/-- The particle species selected by the first letter of the data type in
the target variable name. -/
inductive Specie where
  | electron
  | ion
deriving DecidableEq

/-- The fixed 16-entry energy table of `get_feeps_omni`
(src/pyrfu/mms/get_feeps_omni.py, lines 18-23). -/
def feeps_energies : Specie → List ℚ
  | .electron => [33.2, 51.90, 70.6, 89.4, 107.1, 125.2, 146.5, 171.3,
                  200.2, 234.0, 273.4, 319.4, 373.2, 436.0, 509.2, 575.8]
  | .ion => [57.9, 76.8, 95.4, 114.1, 133.0, 153.7, 177.6,
             205.1, 236.7, 273.2, 315.4, 363.8, 419.7, 484.2, 558.6, 609.9]

/-- Per-spacecraft energy corrections `e_corr`
(src/pyrfu/mms/get_feeps_omni.py, line 26). -/
def e_corr : Specie → List ℚ
  | .electron => [14.0, -1.0, -3.0, -3.0]
  | .ion => [0.0, 0.0, 0.0, 0.0]

/-- Per-spacecraft geometric factors `g_fact`
(src/pyrfu/mms/get_feeps_omni.py, line 28). -/
def g_fact : Specie → List ℚ
  | .electron => [1.0, 1.0, 1.0, 1.0]
  | .ion => [0.84, 1.0, 1.0, 1.0]

/-- The energy coordinate returned by `get_feeps_omni`
(src/pyrfu/mms/get_feeps_omni.py, line 30):
`energies += e_corr[specie][mms_id - 1]`. -/
def omni_energies (sp : Specie) (mms_id : ℕ) : List ℚ :=
  (feeps_energies sp).map (· + (e_corr sp).getD (mms_id - 1) 0)

/-- The data that `get_feeps_omni` obtains through `get_feeps_active_eyes`
and `get_feeps_oneeye` (both external to the clipped sources): the lists of
active top and bottom sensor ids, and for each sensor id of each sensor
head its flux array (time x energy) and its contamination-mask array. -/
structure FeepsInput where
  topSensors : List ℕ
  botSensors : List ℕ
  fluxTop : ℕ → List (List EFloat)
  maskTop : ℕ → List (List ℚ)
  fluxBot : ℕ → List (List EFloat)
  maskBot : ℕ → List (List ℚ)

/-- The masked top-eye array `top_it[s]` of `get_feeps_omni` (lines 44-54). -/
def top_it (fi : FeepsInput) (s : ℕ) : List (List EFloat) :=
  mask_eye (fi.fluxTop s) (fi.maskTop s)

/-- The masked bottom-eye array `bot_it[s]` of `get_feeps_omni`
(lines 56-66). -/
def bot_it (fi : FeepsInput) (s : ℕ) : List (List EFloat) :=
  mask_eye (fi.fluxBot s) (fi.maskBot s)

/-- The stack `dalleyes` of per-eye arrays assembled by `get_feeps_omni`
(src/pyrfu/mms/get_feeps_omni.py, lines 68-74), one slot per active eye.
Each top slot holds that top sensor's masked flux (`dalleyes[..., i] =
top_it[tsen]`).  The bottom loop indexes with the stale top-loop variable:
`dalleyes[..., len(top_sensors) + i] = bot_it[tsen]` (line 74), `tsen`
being the LAST top sensor, so when the bottom loop runs at all, every
bottom slot holds `bot_it` of the last top sensor — a `KeyError` (modelled
by `none`) when that sensor is not an active bottom sensor.  An empty top
sensor list leaves `tsen` and `top` unbound (`NameError`, also `none`). -/
def dalleyes (fi : FeepsInput) : Option (List (List (List EFloat))) :=
  match fi.topSensors.getLast? with
  | none => none
  | some tsen =>
    let tops := fi.topSensors.map (top_it fi)
    if fi.botSensors = [] then some tops
    else if tsen ∈ fi.botSensors then
      some (tops ++ fi.botSensors.map (fun _ => bot_it fi tsen))
    else none

/-- One sample of the flux returned by `get_feeps_omni`
(src/pyrfu/mms/get_feeps_omni.py, lines 76-86): the NaN-ignoring mean over
the eye slots at time `t` and energy channel `ch`, multiplied by the
geometric factor `g_fact[specie][mms_id - 1]`.  The outer `Option` models a
raised error while building `dalleyes`. -/
def get_feeps_omni_at (sp : Specie) (mms_id : ℕ) (fi : FeepsInput) (t ch : ℕ) :
    Option EFloat :=
  (dalleyes fi).map (fun slots =>
    (nanmean (slots.map (fun m => entry m t ch))).map
      (· * (g_fact sp).getD (mms_id - 1) 0))

/-- The omnidirectional flux described by the specification of
`get_feeps_omni`: each active eye, top and bottom, contributes its own
detector's masked flux to the NaN-ignoring mean, which is then scaled by
the geometric factor.  This definition follows the specification's words
and is compared with `get_feeps_omni_at`, which embeds the code. -/
def spec_feeps_omni_at (sp : Specie) (mms_id : ℕ) (fi : FeepsInput) (t ch : ℕ) :
    EFloat :=
  let slots := fi.topSensors.map (top_it fi) ++ fi.botSensors.map (bot_it fi)
  (nanmean (slots.map (fun m => entry m t ch))).map
    (· * (g_fact sp).getD (mms_id - 1) 0)

/-- A sensor head: `true` for top, `false` for bottom. -/
def maskOf (fi : FeepsInput) (side : Bool) (s : ℕ) : List (List ℚ) :=
  match side with
  | true => fi.maskTop s
  | false => fi.maskBot s

/-- The masked array of eye `s` of the given sensor head. -/
def eye_it (fi : FeepsInput) (side : Bool) (s : ℕ) : List (List EFloat) :=
  match side with
  | true => top_it fi s
  | false => bot_it fi s

/-- Replace the raw flux array of eye `e` of the given sensor head by `g`,
leaving everything else unchanged. -/
def updateFlux (fi : FeepsInput) (side : Bool) (e : ℕ) (g : List (List EFloat)) :
    FeepsInput :=
  match side with
  | true => { fi with fluxTop := fun s => if s = e then g else fi.fluxTop s }
  | false => { fi with fluxBot := fun s => if s = e then g else fi.fluxBot s }

/-- A concrete `get_feeps_omni` input: active top sensor 4 and active
bottom sensors 3 and 4, one time sample and one energy channel, no
contamination, with top eye 4 measuring 0, bottom eye 3 measuring 10 and
bottom eye 4 measuring 20. -/
def fi0 : FeepsInput :=
  { topSensors := [4]
    botSensors := [3, 4]
    fluxTop := fun _ => [[some 0]]
    maskTop := fun _ => [[0]]
    fluxBot := fun s => if s = 3 then [[some 10]] else [[some 20]]
    maskBot := fun _ => [[0]] }

/-- A concrete `get_feeps_omni` input whose last active top sensor (1) is
not an active bottom sensor. -/
def fi1 : FeepsInput :=
  { fi0 with topSensors := [1] }

/-- A concrete `get_feeps_omni` input whose top eye 1 is flagged by the
contamination mask at its single time sample. -/
def fiW : FeepsInput :=
  { topSensors := [1]
    botSensors := [1]
    fluxTop := fun _ => [[some 5]]
    maskTop := fun _ => [[1]]
    fluxBot := fun _ => [[some 7]]
    maskBot := fun _ => [[0]] }

/-! ### `pyrf.mean_bins` (src/pyrfu/pyrf/mean_bins.py) and
`pyrf.median_bins` (src/pyrfu/pyrf/median_bins.py) -/

/-- `np.sort(x)[0]`, the smallest value of `x`
(src/pyrfu/pyrf/mean_bins.py line 76, median_bins.py line 77). -/
def x_min (x : List ℚ) : ℚ := (x.mergeSort (fun p q => decide (p ≤ q))).headD 0

/-- `np.sort(x)[-1]`, the largest value of `x`. -/
def x_max (x : List ℚ) : ℚ := (x.mergeSort (fun p q => decide (p ≤ q))).getLastD 0

/-- The bin edges of `mean_bins` and `median_bins`
(src/pyrfu/pyrf/mean_bins.py line 77, median_bins.py line 78):
`np.linspace(x_sort[0], x_sort[-1], bins + 1)`, whose `i`-th point is
`x_min + (x_max - x_min) * i / bins`. -/
def x_edge (x : List ℚ) (bins i : ℕ) : ℚ :=
  x_min x + (x_max x - x_min x) * i / bins

/-- Bin membership in the accumulation loops of `mean_bins` and
`median_bins` (src/pyrfu/pyrf/mean_bins.py lines 82-83, median_bins.py
lines 83-84): `idx_l = x > x_edge[i]` and `idx_r = x < x_edge[i + 1]`,
both strict. -/
def bin_mem (x : List ℚ) (bins i : ℕ) (v : ℚ) : Bool :=
  decide (x_edge x bins i < v) && decide (v < x_edge x bins (i + 1))

/-- The values aggregated for bin `i` by `mean_bins` and `median_bins`
(line 85 resp. 86): `y_bins = np.abs(y[idx_l * idx_r])`, the absolute
values of `y` at the indices whose `x` lies strictly between the two
edges. -/
def y_bins (x y : List ℚ) (bins i : ℕ) : List ℚ :=
  ((x.zip y).filter (fun p => bin_mem x bins i p.1)).map (fun p => |p.2|)

/-- The per-bin means `m[i] = np.mean(y_bins)` of `mean_bins` (line 87). -/
def mean_bins_data (x y : List ℚ) (bins : ℕ) : List ℚ :=
  (List.range bins).map (fun i => (y_bins x y bins i).sum / (y_bins x y bins i).length)

/-! ### `pyrf.rotate_tensor` (src/pyrfu/pyrf/rotate_tensor.py) and
`pyrf.convert_fac` (src/pyrfu/pyrf/convert_fac.py)

One time sample of these functions works on vectors and 3x3 matrices of
floats, modelled as real numbers. -/

/-- The dot product of two 3-vectors (`np.sum(a * b)`). -/
def dot3 (a b : Fin 3 → ℝ) : ℝ := a 0 * b 0 + a 1 * b 1 + a 2 * b 2

/-- The cross product `np.cross(a, b)` of two 3-vectors. -/
def cross3 (a b : Fin 3 → ℝ) : Fin 3 → ℝ :=
  ![a 1 * b 2 - a 2 * b 1, a 2 * b 0 - a 0 * b 2, a 0 * b 1 - a 1 * b 0]

/-- The Euclidean norm `np.linalg.norm(a)` of a 3-vector. -/
noncomputable def norm3 (a : Fin 3 → ℝ) : ℝ := Real.sqrt (dot3 a a)

/-- Division of a 3-vector by its Euclidean norm (`a / np.linalg.norm(a)`). -/
noncomputable def normalize3 (a : Fin 3 → ℝ) : Fin 3 → ℝ := fun i => a i / norm3 a

/-- The matrix with the given rows, as built by
`rot_mat[:, 0, :], rot_mat[:, 1, :], rot_mat[:, 2, :] = [r_x, r_y, r_z]`. -/
def rowMat (x y z : Fin 3 → ℝ) : Matrix (Fin 3) (Fin 3) ℝ := Matrix.of ![x, y, z]

/-- One step of the rotation loop of `pyrf.rotate_tensor`
(src/pyrfu/pyrf/rotate_tensor.py, line 158):
`np.matmul(np.matmul(rot_temp, p_tensor[ii]), np.transpose(rot_temp))`. -/
def rotate_step (r p : Matrix (Fin 3) (Fin 3) ℝ) : Matrix (Fin 3) (Fin 3) ℝ :=
  r * p * r.transpose

/-- The row triad built from a base vector `b` and an auxiliary axis `a` by
`rotate_tensor` and `convert_fac`: `x` is `b` normalized, `z` is the
normalized cross product of `x` with `a`, and `y` is the normalized cross
product of `z` with `x`. -/
noncomputable def triad_x (b : Fin 3 → ℝ) : Fin 3 → ℝ := normalize3 b

/-- Third row of the triad: `r_z = np.cross(r_x, a)` normalized. -/
noncomputable def triad_z (b a : Fin 3 → ℝ) : Fin 3 → ℝ :=
  normalize3 (cross3 (triad_x b) a)

/-- Second row of the triad: `r_y = np.cross(r_z, r_x)` normalized. -/
noncomputable def triad_y (b a : Fin 3 → ℝ) : Fin 3 → ℝ :=
  normalize3 (cross3 (triad_z b a) (triad_x b))

/-- The field-aligned rotation matrix of `pyrf.rotate_tensor`
(src/pyrfu/pyrf/rotate_tensor.py, lines 110-119): `r_x` is the unit
background field, the initial `r_y` is `np.array([1, 0, 0])`, `r_z` is the
normalized `np.cross(r_x, r_y)` and the final `r_y` the normalized
`np.cross(r_z, r_x)`. -/
noncomputable def fac_rot_mat (b : Fin 3 → ℝ) : Matrix (Fin 3) (Fin 3) ℝ :=
  rowMat (triad_x b) (triad_y b ![1, 0, 0]) (triad_z b ![1, 0, 0])

/-- The user-defined rotation matrix of `pyrf.rotate_tensor` for a single
direction vector (src/pyrfu/pyrf/rotate_tensor.py, lines 129-140): `r_x` is
the vector normalized, the initial `r_y` is `np.array([0, 1, 0])`, `r_z`
the normalized `np.cross(r_x, r_y)` and the final `r_y` the normalized
`np.cross(r_z, r_x)`. -/
noncomputable def rot_single_mat (v : Fin 3 → ℝ) : Matrix (Fin 3) (Fin 3) ℝ :=
  rowMat (triad_x v) (triad_y v ![0, 1, 0]) (triad_z v ![0, 1, 0])

/-- The user-defined rotation matrix of `pyrf.rotate_tensor` for three
direction vectors (src/pyrfu/pyrf/rotate_tensor.py, lines 142-148): each
vector is divided by its own norm and used as a row; no orthogonality
check is performed. -/
noncomputable def rot_three_mat (v1 v2 v3 : Fin 3 → ℝ) : Matrix (Fin 3) (Fin 3) ℝ :=
  rowMat (normalize3 v1) (normalize3 v2) (normalize3 v3)

/-- The secondary rotation of the `pp` flag
(src/pyrfu/pyrf/rotate_tensor.py, line 168):
`[[1, 0, 0], [0, cos t, sin t], [0, -sin t, cos t]]`. -/
noncomputable def pp_rot (t : ℝ) : Matrix (Fin 3) (Fin 3) ℝ :=
  Matrix.of ![![1, 0, 0], ![0, Real.cos t, Real.sin t], ![0, -Real.sin t, Real.cos t]]

/-- The secondary rotation of the `qq` flag
(src/pyrfu/pyrf/rotate_tensor.py, line 178):
`[[1, 0, 0], [0, cos t, -sin t], [0, sin t, cos t]]`. -/
noncomputable def qq_rot (t : ℝ) : Matrix (Fin 3) (Fin 3) ℝ :=
  Matrix.of ![![1, 0, 0], ![0, Real.cos t, -Real.sin t], ![0, Real.sin t, Real.cos t]]

/-- The concrete tensor sample used to separate the three-vector rotation
path from a trace-preserving transform. -/
noncomputable def p_xx : Matrix (Fin 3) (Fin 3) ℝ :=
  Matrix.of ![![1, 0, 0], ![0, 0, 0], ![0, 0, 0]]

/-- The parallel direction of `pyrf.convert_fac`
(src/pyrfu/pyrf/convert_fac.py, lines 71 and 81): the unit background
field `bn`. -/
noncomputable def fac_basis_par (b : Fin 3 → ℝ) : Fin 3 → ℝ := normalize3 b

/-- The first perpendicular direction of `pyrf.convert_fac` (lines 84-85):
`r_perp_y = np.cross(r_par, r)` normalized. -/
noncomputable def fac_basis_y (b r : Fin 3 → ℝ) : Fin 3 → ℝ :=
  normalize3 (cross3 (fac_basis_par b) r)

/-- The second perpendicular direction of `pyrf.convert_fac` (lines 86-87):
`r_perp_x = np.cross(r_perp_y, b_bgd)` normalized — note the cross product
is taken with the unnormalized field. -/
noncomputable def fac_basis_x (b r : Fin 3 → ℝ) : Fin 3 → ℝ :=
  normalize3 (cross3 (fac_basis_y b r) b)

/-- One 3-component sample of `pyrf.convert_fac`
(src/pyrfu/pyrf/convert_fac.py, lines 91-96): the components of the output
are the dot products of the input sample with `r_perp_x`, `r_perp_y` and
`r_par`. -/
noncomputable def convert_fac (v b r : Fin 3 → ℝ) : Fin 3 → ℝ :=
  ![dot3 (fac_basis_x b r) v, dot3 (fac_basis_y b r) v, dot3 (fac_basis_par b) v]

/-! ## Theorems -/

/-- Helper: a map leaves a list unchanged exactly when it fixes every
member. -/
theorem list_map_eq_self_iff {α : Type} (f : α → α) (l : List α) :
    l.map f = l ↔ ∀ a ∈ l, f a = a := by
  induction l with
  | nil => simp
  | cons a l ih => simp [ih]

/-- Helper: the ISO millisecond rendering is the identity on instants that
are whole milliseconds. -/
theorem isoMs_eq_self (k : ℤ) : isoMs ((k : ℚ) / 1000) = (k : ℚ) / 1000 := by
  unfold isoMs
  have h : (1000 : ℚ) * ((k : ℚ) / 1000) = (k : ℚ) := by ring
  rw [h, round_intCast]

/-- C10: for every valid two-element time interval (bounds on the
millisecond grid used throughout the library), `extend_tint` with `ext`
omitted returns the interval starting 60 seconds earlier and ending 60
seconds later, and `extend_tint` with `ext = [0, 0]` returns bounds
denoting exactly the two instants of the input. -/
theorem extend_tint_default_and_roundtrip (k1 k2 : ℤ) (t1 t2 : ℚ)
    (h1 : t1 = (k1 : ℚ) / 1000) (h2 : t2 = (k2 : ℚ) / 1000) :
    extend_tint t1 t2 none = (t1 - 60, t2 + 60) ∧
    extend_tint t1 t2 (some (0, 0)) = (t1, t2) := by
  subst h1 h2
  have e1 : (k1 : ℚ) / 1000 + (-60 : ℚ) = ((k1 - 60000 : ℤ) : ℚ) / 1000 := by
    push_cast; ring
  have e2 : (k2 : ℚ) / 1000 + (60 : ℚ) = ((k2 + 60000 : ℤ) : ℚ) / 1000 := by
    push_cast; ring
  constructor
  · simp only [extend_tint, Option.getD]
    rw [e1, e2, isoMs_eq_self, isoMs_eq_self, Prod.mk.injEq]
    constructor <;> (push_cast; ring)
  · simp only [extend_tint, Option.getD, add_zero]
    rw [isoMs_eq_self, isoMs_eq_self]

/-- Witness for C10 at the interval `[0 s, 1 s]`. -/
theorem extend_tint_default_and_roundtrip_witness :
    extend_tint 0 1 none = (0 - 60, 1 + 60) ∧
    extend_tint 0 1 (some (0, 0)) = (0, 1) :=
  extend_tint_default_and_roundtrip 0 1000 0 1 (by norm_num) (by norm_num)

/-- C9: the window length actually used by `medfilt` is always odd — a
float `n_pts` is floored and an even value is incremented by one — and the
filtered series keeps the shape, dims, coords and attrs of the input,
provided the external median filter preserves series length. -/
theorem medfilt_odd_window_and_shape (filt : List ℚ → ℤ → List ℚ)
    (hf : ∀ c k, (filt c k).length = c.length) (inp : TSeries) (n_pts : NPts) :
    Odd (adjust_n_pts n_pts) ∧
    (∀ q : ℚ, adjust_n_pts (.float q) = adjust_n_pts (.int ⌊q⌋)) ∧
    (medfilt filt inp n_pts).data.map List.length = inp.data.map List.length ∧
    (medfilt filt inp n_pts).dims = inp.dims ∧
    (medfilt filt inp n_pts).coords = inp.coords ∧
    (medfilt filt inp n_pts).attrs = inp.attrs := by
  refine ⟨?_, fun q => rfl, ?_, rfl, rfl, rfl⟩
  · unfold adjust_n_pts
    set m : ℤ := match n_pts with
      | .float q => ⌊q⌋
      | .int z => z with hm
    by_cases h : m % 2 = 0
    · simp only [h, if_pos]
      rw [Int.odd_iff]
      omega
    · simp only [h, if_neg, if_false]
      rw [Int.odd_iff]
      omega
  · simp only [medfilt, List.map_map]
    exact List.map_congr_left (fun c _ => hf c _)

/-- Witness for C9: the identity filter, a two-component series, and the
float window length 9/2 (floored to 4, bumped to the odd 5). -/
theorem medfilt_odd_window_and_shape_witness :
    (∀ c : List ℚ, ∀ k : ℤ, ((fun (c : List ℚ) (_ : ℤ) => c) c k).length = c.length) ∧
    (Odd (adjust_n_pts (.float (9 / 2))) ∧
      (∀ q : ℚ, adjust_n_pts (.float q) = adjust_n_pts (.int ⌊q⌋)) ∧
      (medfilt (fun c _ => c) ⟨["time"], [("time", [0, 1])], [("UNITS", "nT")],
          [[1, 2], [3, 4]]⟩ (.float (9 / 2))).data.map List.length =
        ([[1, 2], [3, 4]] : List (List ℚ)).map List.length ∧
      (medfilt (fun c _ => c) ⟨["time"], [("time", [0, 1])], [("UNITS", "nT")],
          [[1, 2], [3, 4]]⟩ (.float (9 / 2))).dims = ["time"] ∧
      (medfilt (fun c _ => c) ⟨["time"], [("time", [0, 1])], [("UNITS", "nT")],
          [[1, 2], [3, 4]]⟩ (.float (9 / 2))).coords = [("time", [0, 1])] ∧
      (medfilt (fun c _ => c) ⟨["time"], [("time", [0, 1])], [("UNITS", "nT")],
          [[1, 2], [3, 4]]⟩ (.float (9 / 2))).attrs = [("UNITS", "nT")]) :=
  ⟨fun _ _ => rfl,
    medfilt_odd_window_and_shape (fun c _ => c) (fun _ _ => rfl)
      ⟨["time"], [("time", [0, 1])], [("UNITS", "nT")], [[1, 2], [3, 4]]⟩
      (.float (9 / 2))⟩

/-- C1 (counterexample): `match_phibe_v` does not leave its density
argument unchanged — with the density vector `[1]` (and empty field and
potential arrays), the density state after the call is `[1000000]`. -/
theorem match_phibe_v_mutates_density :
    (match_phibe_v 1 1 0 [] [] [1] []).2.2 ≠ [1] := by
  simp [match_phibe_v]

/-- C1 (amended): every function returns new labeled arrays, except that
`match_phibe_v` multiplies every entry of its density argument `n` by 1e6
in place — so `n` is returned unchanged exactly when all its entries are
zero — and `calculate_epsilon` divides its `vdf` and `model_vdf` arguments
by 1e18 in place — each returned unchanged exactly when all its entries
are zero. -/
theorem match_phibe_v_and_calculate_epsilon_state (mu0 qe b0 : ℚ)
    (bz0 int_e_dt n v vdf model_vdf : List ℚ) :
    (match_phibe_v mu0 qe b0 bz0 int_e_dt n v).2.2 = n.map (· * 1000000) ∧
    ((match_phibe_v mu0 qe b0 bz0 int_e_dt n v).2.2 = n ↔ ∀ a ∈ n, a = 0) ∧
    (calculate_epsilon_vdf_state vdf model_vdf).1 = vdf.map (· / 10 ^ 18) ∧
    ((calculate_epsilon_vdf_state vdf model_vdf).1 = vdf ↔ ∀ a ∈ vdf, a = 0) ∧
    ((calculate_epsilon_vdf_state vdf model_vdf).2 = model_vdf ↔
      ∀ a ∈ model_vdf, a = 0) := by
  refine ⟨rfl, ?_, rfl, ?_, ?_⟩
  · rw [show (match_phibe_v mu0 qe b0 bz0 int_e_dt n v).2.2
        = n.map (· * 1000000) from rfl]
    rw [list_map_eq_self_iff]
    constructor
    · intro h a ha
      have := h a ha
      nlinarith [this]
    · intro h a ha
      rw [h a ha]; ring
  · rw [show (calculate_epsilon_vdf_state vdf model_vdf).1
        = vdf.map (· / 10 ^ 18) from rfl]
    rw [list_map_eq_self_iff]
    constructor
    · intro h a ha
      have := h a ha
      nlinarith [this]
    · intro h a ha
      rw [h a ha]; ring
  · rw [show (calculate_epsilon_vdf_state vdf model_vdf).2
        = model_vdf.map (· / 10 ^ 18) from rfl]
    rw [list_map_eq_self_iff]
    constructor
    · intro h a ha
      have := h a ha
      nlinarith [this]
    · intro h a ha
      rw [h a ha]; ring

/-- C4: input-type validation of `time_clip` is broken for one documented
argument kind — a `numpy` array of datetime values.  The docstring of
`time_clip` documents `tint` as possibly "a array of datetime64", yet the
code raises `TypeError('Values must be in Datetime64')` for exactly that
kind, because it requires the elements to be `datetime.datetime` objects;
and even an array of `datetime.datetime` elements fails, with
`AttributeError`, since the code then reads the nonexistent `tint.time`
attribute.  The remaining validation behaves as the claim states:
`DataArray` and list intervals pass, any other type raises `TypeError`,
a non-`DataArray` `inp` raises `TypeError`, and `norm` raises `TypeError`
on a non-`DataArray` input (`ValueError` on `None`). -/
theorem time_clip_validation_divergence :
    time_clip_bounds true (.ndarrayOfDatetime64 [10, 20])
      = .error (.typeError "Values must be in Datetime64") ∧
    time_clip_bounds true (.ndarrayOfDatetime [10, 20])
      = .error (.attributeError "ndarray object has no attribute time") ∧
    time_clip_bounds true (.dataArrayT [10, 20]) = .ok (10, 20) ∧
    time_clip_bounds true (.listOfStr [10, 20]) = .ok (10, 20) ∧
    time_clip_bounds true .otherT
      = .error (.typeError "Invalid type of time interval") ∧
    time_clip_bounds false (.dataArrayT [10, 20])
      = .error (.typeError "Input must be a TSeries") ∧
    norm_check .otherN = .error (.typeError "Input must be a DataArray") ∧
    norm_check .pyNone = .error (.valueError "norm require one argument") ∧
    norm_check .dataArrayN = .ok () := by
  refine ⟨rfl, rfl, rfl, rfl, rfl, rfl, rfl, rfl, rfl⟩

/-- C2: the omnidirectional FEEPS flux returned by the code is NOT the
NaN-ignoring mean in which each active eye contributes its own detector's
masked flux.  On the input `fi0` (active top eye 4 with flux 0, active
bottom eyes 3 and 4 with fluxes 10 and 20, ion burst data of spacecraft 1,
no contamination) the code's stack holds the last TOP sensor's bottom eye
in every bottom slot, returning `0.84 * (0 + 20 + 20)/3 = 56/5` where the
per-eye mean of the specification is `0.84 * (0 + 10 + 20)/3 = 42/5`; and
on `fi1`, whose only top sensor 1 is not an active bottom sensor, the
lookup `bot_it[tsen]` raises `KeyError`. -/
theorem get_feeps_omni_bottom_eye_divergence :
    get_feeps_omni_at .ion 1 fi0 0 0 = some (some (56 / 5)) ∧
    spec_feeps_omni_at .ion 1 fi0 0 0 = some (42 / 5) ∧
    get_feeps_omni_at .ion 1 fi0 0 0 ≠ some (spec_feeps_omni_at .ion 1 fi0 0 0) ∧
    get_feeps_omni_at .ion 1 fi1 0 0 = none := by
  have hc : get_feeps_omni_at .ion 1 fi0 0 0 = some (some (56 / 5)) := by
    simp [get_feeps_omni_at, dalleyes, fi0, top_it, bot_it, mask_eye, entry,
      nanmean, g_fact]
    norm_num
  have hs : spec_feeps_omni_at .ion 1 fi0 0 0 = some (42 / 5) := by
    simp [spec_feeps_omni_at, fi0, top_it, bot_it, mask_eye, entry, nanmean, g_fact]
    norm_num
  have hk : get_feeps_omni_at .ion 1 fi1 0 0 = none := by
    simp [get_feeps_omni_at, dalleyes, fi1, fi0]
  refine ⟨hc, hs, ?_, hk⟩
  rw [hc, hs]
  intro h
  simp at h
  norm_num at h

/-- Helper: looking up any position of a row mapped to all-NaN yields NaN. -/
theorem getD_map_none {α : Type} (l : List α) (ch : ℕ) :
    (l.map (fun _ => (none : EFloat))).getD ch none = none := by
  induction l generalizing ch with
  | nil => simp [List.getD]
  | cons a l ih =>
    cases ch with
    | zero => simp [List.getD]
    | succ ch' =>
      rw [List.map_cons, List.getD_cons_succ]
      exact ih ch'

/-- Helper: a masked time sample is NaN at every energy channel: when the
column-0 mask value of row `t` equals 1, `mask_eye` leaves nothing of that
flux row. -/
theorem entry_mask_eye_none (f : List (List EFloat)) (m : List (List ℚ)) (t ch : ℕ)
    (hm : (m.getD t []).headD 0 = 1) : entry (mask_eye f m) t ch = none := by
  induction f generalizing m t with
  | nil => simp [mask_eye, entry, List.getD]
  | cons fr f ih =>
    cases m with
    | nil => simp [mask_eye, entry, List.getD]
    | cons mr m' =>
      cases t with
      | zero =>
        have hm0 : mr.headD 0 = 1 := by simpa [List.getD] using hm
        simp only [mask_eye, List.zip_cons_cons, List.map_cons, entry,
          List.getD, List.getElem?_cons_zero, Option.getD_some, hm0, if_pos]
        exact getD_map_none fr ch
      | succ t' =>
        have hm' : (m'.getD t' []).headD 0 = 1 := by simpa [List.getD] using hm
        simpa [mask_eye, entry, List.getD] using ih m' t' hm'

/-- Helper: one returned flux sample, written as the scaled NaN-ignoring
mean of the per-eye entries of the `dalleyes` stack. -/
theorem get_feeps_omni_at_eq (sp : Specie) (mms_id : ℕ) (fi : FeepsInput)
    (t ch : ℕ) :
    get_feeps_omni_at sp mms_id fi t ch
      = ((dalleyes fi).map (fun slots => slots.map (fun mm => entry mm t ch))).map
          (fun vs => (nanmean vs).map (· * (g_fact sp).getD (mms_id - 1) 0)) := by
  unfold get_feeps_omni_at
  cases dalleyes fi <;> simp

/-- Helper: the returned flux sample at `(t, ch)` only depends on the
active sensor lists and on the masked per-eye entries at `(t, ch)`. -/
theorem get_feeps_omni_at_congr (sp : Specie) (mms_id : ℕ) (fi fi' : FeepsInput)
    (t ch : ℕ) (hts : fi'.topSensors = fi.topSensors)
    (hbs : fi'.botSensors = fi.botSensors)
    (hT : ∀ s, entry (top_it fi' s) t ch = entry (top_it fi s) t ch)
    (hB : ∀ s, entry (bot_it fi' s) t ch = entry (bot_it fi s) t ch) :
    get_feeps_omni_at sp mms_id fi' t ch = get_feeps_omni_at sp mms_id fi t ch := by
  rw [get_feeps_omni_at_eq, get_feeps_omni_at_eq]
  have hvals : (dalleyes fi').map (fun slots => slots.map (fun mm => entry mm t ch))
      = (dalleyes fi).map (fun slots => slots.map (fun mm => entry mm t ch)) := by
    unfold dalleyes
    rw [hts, hbs]
    cases hlast : fi.topSensors.getLast? with
    | none => rfl
    | some tsen =>
      have htop : List.map (fun mm => entry mm t ch) (fi.topSensors.map (top_it fi'))
          = List.map (fun mm => entry mm t ch) (fi.topSensors.map (top_it fi)) := by
        rw [List.map_map, List.map_map]
        exact List.map_congr_left (fun s _ => hT s)
      by_cases hb : fi.botSensors = []
      · simp only [hb, reduceIte, Option.map_some']
        exact congrArg some htop
      · by_cases hmem : tsen ∈ fi.botSensors
        · simp only [hb, hmem, reduceIte, Option.map_some']
          refine congrArg some ?_
          rw [List.map_append, List.map_append, htop]
          congr 1
          rw [List.map_map, List.map_map]
          exact List.map_congr_left (fun _ _ => hB tsen)
        · simp only [hb, hmem, reduceIte, Option.map_none']
  rw [hvals]

/-- C3: sun-contamination removal in `get_feeps_omni`.  For every active
eye of either sensor head whose contamination-mask column 0 equals 1 at a
time sample, that eye's masked flux at that sample is NaN across all
energy channels, and the flux that `get_feeps_omni` returns at that time
sample is unchanged under any replacement of that eye's raw flux — the
masked sample never contributes to the returned mean. -/
theorem feeps_masked_sample_never_contributes (sp : Specie) (mms_id : ℕ)
    (fi : FeepsInput) (side : Bool) (e t : ℕ)
    (hm : ((maskOf fi side e).getD t []).headD 0 = 1) :
    (∀ ch, entry (eye_it fi side e) t ch = none) ∧
    (∀ g ch, get_feeps_omni_at sp mms_id (updateFlux fi side e g) t ch
      = get_feeps_omni_at sp mms_id fi t ch) := by
  cases side with
  | true =>
    have hm' : ((fi.maskTop e).getD t []).headD 0 = 1 := hm
    constructor
    · intro ch
      exact entry_mask_eye_none _ _ t ch hm'
    · intro g ch
      refine get_feeps_omni_at_congr sp mms_id fi _ t ch rfl rfl ?_ (fun s => rfl)
      intro s
      by_cases hs : s = e
      · subst hs
        show entry (mask_eye (if s = s then g else fi.fluxTop s) (fi.maskTop s)) t ch
          = entry (mask_eye (fi.fluxTop s) (fi.maskTop s)) t ch
        rw [if_pos rfl, entry_mask_eye_none _ _ t ch hm',
          entry_mask_eye_none _ _ t ch hm']
      · show entry (mask_eye (if s = e then g else fi.fluxTop s) (fi.maskTop s)) t ch
          = entry (mask_eye (fi.fluxTop s) (fi.maskTop s)) t ch
        rw [if_neg hs]
  | false =>
    have hm' : ((fi.maskBot e).getD t []).headD 0 = 1 := hm
    constructor
    · intro ch
      exact entry_mask_eye_none _ _ t ch hm'
    · intro g ch
      refine get_feeps_omni_at_congr sp mms_id fi _ t ch rfl rfl (fun s => rfl) ?_
      intro s
      by_cases hs : s = e
      · subst hs
        show entry (mask_eye (if s = s then g else fi.fluxBot s) (fi.maskBot s)) t ch
          = entry (mask_eye (fi.fluxBot s) (fi.maskBot s)) t ch
        rw [if_pos rfl, entry_mask_eye_none _ _ t ch hm',
          entry_mask_eye_none _ _ t ch hm']
      · show entry (mask_eye (if s = e then g else fi.fluxBot s) (fi.maskBot s)) t ch
          = entry (mask_eye (fi.fluxBot s) (fi.maskBot s)) t ch
        rw [if_neg hs]

/-- Witness for C3: on `fiW` the top eye 1 is mask-flagged at time 0, its
masked flux is NaN there, and the returned flux is independent of its raw
flux. -/
theorem feeps_masked_sample_never_contributes_witness :
    ((maskOf fiW true 1).getD 0 []).headD 0 = 1 ∧
    ((∀ ch, entry (eye_it fiW true 1) 0 ch = none) ∧
      (∀ g ch, get_feeps_omni_at .ion 1 (updateFlux fiW true 1 g) 0 ch
        = get_feeps_omni_at .ion 1 fiW 0 ch)) :=
  ⟨by decide,
    feeps_masked_sample_never_contributes .ion 1 fiW true 1 0 (by decide)⟩

/-- Helper: zipping two equally truncated lists truncates the zip. -/
theorem zip_take_eq {α β : Type} :
    ∀ (a : List α) (b : List β) (n : ℕ), (a.take n).zip (b.take n) = (a.zip b).take n := by
  intro a
  induction a with
  | nil => intro b n; simp
  | cons x a ih =>
    intro b n
    cases b with
    | nil => simp
    | cons y b =>
      cases n with
      | zero => simp
      | succ n => simp [ih]

/-- Helper: zipping two equally shifted lists shifts the zip. -/
theorem zip_drop_eq {α β : Type} :
    ∀ (a : List α) (b : List β) (n : ℕ), (a.drop n).zip (b.drop n) = (a.zip b).drop n := by
  intro a
  induction a with
  | nil => intro b n; simp
  | cons x a ih =>
    intro b n
    cases b with
    | nil => simp
    | cons y b =>
      cases n with
      | zero => simp
      | succ n => simp [ih]

/-- Helper: counting on the first components of a zip of equally long
lists counts on the first list. -/
theorem countP_fst_zip {α : Type} (p : ℤ → Bool) :
    ∀ (a : List ℤ) (d : List α), d.length = a.length →
      a.countP p = (a.zip d).countP (fun q => p q.1) := by
  intro a
  induction a with
  | nil => intro d _; simp
  | cons x a ih =>
    intro d hd
    cases d with
    | nil => simp at hd
    | cons y d =>
      simp only [List.length_cons, Nat.succ.injEq] at hd
      simp only [List.zip_cons_cons, List.countP_cons]
      rw [ih d hd]

/-- Helper: a sorted time coordinate zipped with its data is sorted on the
time component. -/
theorem pairwise_fst_zip {α : Type} :
    ∀ (a : List ℤ) (d : List α), a.Pairwise (· ≤ ·) →
      (a.zip d).Pairwise (fun p q => p.1 ≤ q.1) := by
  intro a
  induction a with
  | nil => intro d _; simp
  | cons x a ih =>
    intro d hp
    cases d with
    | nil => simp
    | cons y d =>
      rw [List.pairwise_cons] at hp
      rw [List.zip_cons_cons, List.pairwise_cons]
      refine ⟨?_, ih d hp.2⟩
      intro q hq
      exact hp.1 q.1 (List.of_mem_zip hq).1

/-- Helper: on a list sorted by time, taking as many elements as satisfy
`time ≤ b` is filtering by `time ≤ b`. -/
theorem take_countP_le_eq_filter {α : Type} (b : ℤ) :
    ∀ (s : List (ℤ × α)), s.Pairwise (fun p q => p.1 ≤ q.1) →
      s.take (s.countP (fun p => decide (p.1 ≤ b)))
        = s.filter (fun p => decide (p.1 ≤ b)) := by
  intro s
  induction s with
  | nil => intro _; rfl
  | cons p s ih =>
    intro hp
    rw [List.pairwise_cons] at hp
    by_cases hpb : p.1 ≤ b
    · have hcnt : (p :: s).countP (fun p => decide (p.1 ≤ b))
          = s.countP (fun p => decide (p.1 ≤ b)) + 1 := by
        simp [List.countP_cons, hpb]
      rw [hcnt, List.take_succ_cons, List.filter_cons, if_pos (by simp [hpb]), ih hp.2]
    · have hall : ∀ q ∈ s, ¬(q.1 ≤ b) := by
        intro q hq hqb
        exact hpb (le_trans (hp.1 q hq) hqb)
      have hc : s.countP (fun p => decide (p.1 ≤ b)) = 0 := by
        rw [List.countP_eq_zero]
        intro q hq
        simp [hall q hq]
      have hf : s.filter (fun p => decide (p.1 ≤ b)) = [] := by
        rw [List.filter_eq_nil_iff]
        intro q hq
        simp [hall q hq]
      have hcnt : (p :: s).countP (fun p => decide (p.1 ≤ b)) = 0 := by
        simp [List.countP_cons, hpb, hc]
      rw [hcnt, List.take_zero, List.filter_cons, if_neg (by simp [hpb]), hf]

/-- Helper: on a list sorted by time, the slice between the left insertion
point of `a` and the right insertion point of `b` is the filter by the
closed interval `[a, b]`. -/
theorem slice_sorted_eq_filter {α : Type} (a b : ℤ) :
    ∀ (s : List (ℤ × α)), s.Pairwise (fun p q => p.1 ≤ q.1) →
      (s.take (s.countP (fun p => decide (p.1 ≤ b)))).drop
          (s.countP (fun p => decide (p.1 < a)))
        = s.filter (fun p => decide (a ≤ p.1) && decide (p.1 ≤ b)) := by
  intro s
  induction s with
  | nil => intro _; rfl
  | cons p s ih =>
    intro hp
    have hp' := hp
    rw [List.pairwise_cons] at hp'
    by_cases hpa : p.1 < a
    · by_cases hpb : p.1 ≤ b
      · have hcb : (p :: s).countP (fun p => decide (p.1 ≤ b))
            = s.countP (fun p => decide (p.1 ≤ b)) + 1 := by
          simp [List.countP_cons, hpb]
        have hca : (p :: s).countP (fun p => decide (p.1 < a))
            = s.countP (fun p => decide (p.1 < a)) + 1 := by
          simp [List.countP_cons, hpa]
        rw [hcb, hca, List.take_succ_cons, List.drop_succ_cons, List.filter_cons,
          if_neg (by simp [not_le.mpr hpa])]
        exact ih hp'.2
      · have hall : ∀ q ∈ p :: s, ¬(q.1 ≤ b) := by
          intro q hq
          rcases List.mem_cons.mp hq with h | h
          · rw [h]; exact hpb
          · intro hqb
            exact hpb (le_trans (hp'.1 q h) hqb)
        have hc : (p :: s).countP (fun p => decide (p.1 ≤ b)) = 0 := by
          rw [List.countP_eq_zero]
          intro q hq
          simp [hall q hq]
        have hf : (p :: s).filter (fun p => decide (a ≤ p.1) && decide (p.1 ≤ b)) = [] := by
          rw [List.filter_eq_nil_iff]
          intro q hq
          simp [hall q hq]
        rw [hc, hf, List.take_zero, List.drop_nil]
    · have hc : (p :: s).countP (fun p => decide (p.1 < a)) = 0 := by
        rw [List.countP_eq_zero]
        intro q hq
        rcases List.mem_cons.mp hq with h | h
        · simp [h, hpa]
        · simp only [decide_eq_true_eq]
          exact fun hlt => hpa (lt_of_le_of_lt (hp'.1 q h) hlt)
      rw [hc, List.drop_zero, take_countP_le_eq_filter b _ hp]
      refine List.filter_congr ?_
      intro q hq
      have hqa : a ≤ q.1 := by
        rcases List.mem_cons.mp hq with h | h
        · rw [h]; exact not_lt.mp hpa
        · exact le_trans (not_lt.mp hpa) (hp'.1 q h)
      simp [hqa]

/-- C5: for every labeled array with sorted time coordinate and every
parsed list interval `[t_start, t_stop]`, `time_clip` returns exactly the
samples whose time lies in the closed interval, in their original order,
and preserves the non-time coordinates, the dims, the attrs and the time
attrs of the input. -/
theorem time_clip_closed_interval {α : Type} (inp : DataArray α)
    (t_start t_stop : ℤ) (hsort : inp.time.Pairwise (· ≤ ·))
    (hlen : inp.data.length = inp.time.length) :
    (time_clip inp t_start t_stop).time.zip (time_clip inp t_start t_stop).data
      = (inp.time.zip inp.data).filter
          (fun p => decide (t_start ≤ p.1) && decide (p.1 ≤ t_stop)) ∧
    (time_clip inp t_start t_stop).nonTimeCoords = inp.nonTimeCoords ∧
    (time_clip inp t_start t_stop).dims = inp.dims ∧
    (time_clip inp t_start t_stop).attrs = inp.attrs ∧
    (time_clip inp t_start t_stop).timeAttrs = inp.timeAttrs := by
  refine ⟨?_, rfl, rfl, rfl, rfl⟩
  show (((inp.time.take (bisect_right inp.time t_stop)).drop
      (bisect_left inp.time t_start)).zip
        ((inp.data.take (bisect_right inp.time t_stop)).drop
      (bisect_left inp.time t_start))) = _
  rw [zip_drop_eq, zip_take_eq]
  unfold bisect_left bisect_right
  rw [countP_fst_zip _ _ _ hlen, countP_fst_zip _ _ _ hlen]
  exact slice_sorted_eq_filter t_start t_stop _ (pairwise_fst_zip _ _ hsort)

/-- Witness for C5: clipping the series with times `[0, 5, 10]` and data
`[1, 2, 3]` to the interval `[2, 10]` keeps exactly the last two samples. -/
theorem time_clip_closed_interval_witness :
    ([0, 5, 10] : List ℤ).Pairwise (· ≤ ·) ∧
    (time_clip (⟨[0, 5, 10], [(1 : ℚ), 2, 3], [("energy", [7])], ["time"],
          [("UNITS", "nT")], [("TIME_BASE", "J2000")]⟩ : DataArray ℚ) 2 10).time.zip
        (time_clip (⟨[0, 5, 10], [(1 : ℚ), 2, 3], [("energy", [7])], ["time"],
          [("UNITS", "nT")], [("TIME_BASE", "J2000")]⟩ : DataArray ℚ) 2 10).data
      = (([0, 5, 10] : List ℤ).zip ([(1 : ℚ), 2, 3])).filter
          (fun p => decide ((2 : ℤ) ≤ p.1) && decide (p.1 ≤ (10 : ℤ))) := by
  constructor
  · decide
  · exact (time_clip_closed_interval _ 2 10 (by decide) (by decide)).1

/-- Helper: the default value of `getLastD` is irrelevant on a nonempty
list. -/
theorem getLastD_irrel (l : List ℚ) (c d : ℚ) (hl : l ≠ []) :
    l.getLastD c = l.getLastD d := by
  cases l with
  | nil => exact absurd rfl hl
  | cons a t => rfl

/-- Helper: the head of a sorted list bounds every member from below. -/
theorem sorted_headD_le (s : List ℚ) (hs : s.Sorted (· ≤ ·)) :
    ∀ v ∈ s, s.headD 0 ≤ v := by
  cases s with
  | nil => intro v hv; cases hv
  | cons a t =>
    rw [List.sorted_cons] at hs
    intro v hv
    rcases List.mem_cons.mp hv with h | h
    · rw [h]
      exact le_of_eq rfl
    · exact hs.1 v h

/-- Helper: the last element of a sorted list bounds every member from
above. -/
theorem sorted_le_getLastD : ∀ (t : List ℚ) (a v : ℚ),
    (a :: t).Sorted (· ≤ ·) → v ∈ a :: t → v ≤ (a :: t).getLastD 0 := by
  intro t
  induction t with
  | nil =>
    intro a v _ hv
    rcases List.mem_cons.mp hv with h | h
    · rw [h]; rfl
    · cases h
  | cons b t ih =>
    intro a v hs hv
    rw [List.sorted_cons] at hs
    have hlast : (a :: b :: t).getLastD 0 = (b :: t).getLastD 0 := rfl
    rw [hlast]
    rcases List.mem_cons.mp hv with h | h
    · rw [h]
      exact le_trans (hs.1 b (List.mem_cons_self b t)) (ih b b hs.2 (List.mem_cons_self b t))
    · exact ih b v hs.2 h

/-- Helper: `x_min` bounds every value of `x` from below. -/
theorem x_min_le (x : List ℚ) : ∀ v ∈ x, x_min x ≤ v := by
  intro v hv
  have hsort : (x.mergeSort (fun p q => decide (p ≤ q))).Sorted (· ≤ ·) := by
    simpa using List.sorted_mergeSort' (α := ℚ) x
  have hmem : v ∈ x.mergeSort (fun p q => decide (p ≤ q)) :=
    ((List.mergeSort_perm x _).mem_iff).mpr hv
  exact sorted_headD_le _ hsort v hmem

/-- Helper: `x_max` bounds every value of `x` from above. -/
theorem le_x_max (x : List ℚ) : ∀ v ∈ x, v ≤ x_max x := by
  intro v hv
  have hsort : (x.mergeSort (fun p q => decide (p ≤ q))).Sorted (· ≤ ·) := by
    simpa using List.sorted_mergeSort' (α := ℚ) x
  have hmem : v ∈ x.mergeSort (fun p q => decide (p ≤ q)) :=
    ((List.mergeSort_perm x _).mem_iff).mpr hv
  unfold x_max
  cases hs : x.mergeSort (fun p q => decide (p ≤ q)) with
  | nil => rw [hs] at hmem; cases hmem
  | cons a t =>
    rw [hs] at hmem hsort
    exact sorted_le_getLastD t a v hsort hmem

/-- Helper: `x_min` is attained on a nonempty `x`. -/
theorem x_min_mem (x : List ℚ) (hx : x ≠ []) : x_min x ∈ x := by
  have hne : x.mergeSort (fun p q => decide (p ≤ q)) ≠ [] := by
    intro hs
    apply hx
    have hperm : x.Perm ([] : List ℚ) := by
      rw [← hs]
      exact (List.mergeSort_perm x _).symm
    exact hperm.eq_nil
  cases hs : x.mergeSort (fun p q => decide (p ≤ q)) with
  | nil => exact absurd hs hne
  | cons a t =>
    have : x_min x = a := by unfold x_min; rw [hs]; rfl
    rw [this]
    exact ((List.mergeSort_perm x _).mem_iff).mp (hs ▸ List.mem_cons_self a t)

/-- Helper: the smallest value of `x` does not exceed the largest. -/
theorem x_min_le_x_max (x : List ℚ) (hx : x ≠ []) : x_min x ≤ x_max x :=
  le_x_max x (x_min x) (x_min_mem x hx)

/-- Helper: the bin edges are monotone in the index. -/
theorem x_edge_mono (x : List ℚ) (hx : x ≠ []) (bins : ℕ) {i j : ℕ} (hij : i ≤ j) :
    x_edge x bins i ≤ x_edge x bins j := by
  unfold x_edge
  have hba : 0 ≤ x_max x - x_min x := sub_nonneg.mpr (x_min_le_x_max x hx)
  have hcast : (i : ℚ) ≤ (j : ℚ) := by exact_mod_cast hij
  have hbins : (0 : ℚ) ≤ (bins : ℚ) := by positivity
  gcongr

/-- Helper: the first bin edge is the smallest value of `x`. -/
theorem x_edge_zero (x : List ℚ) (bins : ℕ) : x_edge x bins 0 = x_min x := by
  simp [x_edge]

/-- Helper: the last bin edge is the largest value of `x`. -/
theorem x_edge_last (x : List ℚ) (bins : ℕ) (hb : 0 < bins) :
    x_edge x bins bins = x_max x := by
  unfold x_edge
  have : (bins : ℚ) ≠ 0 := by positivity
  field_simp

/-- C8: bin membership in `mean_bins` and `median_bins` uses strict
inequalities: a value equal to any bin edge belongs to no bin, in
particular the smallest and largest values of `x` are excluded from every
bin, so no pair aggregated for any bin (the absolute values of `y` at
indices with `x` strictly between the two edges) carries the minimum or
the maximum of `x`. -/
theorem mean_median_bins_strict_edges (x y : List ℚ) (bins i j : ℕ)
    (hx : x ≠ []) (hb : 0 < bins) (_hi : i < bins) (hj : j ≤ bins) :
    bin_mem x bins i (x_edge x bins j) = false ∧
    bin_mem x bins i (x_min x) = false ∧
    bin_mem x bins i (x_max x) = false ∧
    ∀ p ∈ (x.zip y).filter (fun p => bin_mem x bins i p.1),
      p.1 ≠ x_min x ∧ p.1 ≠ x_max x := by
  have hedge : ∀ k, k ≤ bins → bin_mem x bins i (x_edge x bins k) = false := by
    intro k hk
    by_cases hik : k ≤ i
    · have hle : x_edge x bins k ≤ x_edge x bins i := x_edge_mono x hx bins hik
      simp [bin_mem, not_lt.mpr hle]
    · have hik' : i + 1 ≤ k := Nat.succ_le_of_lt (Nat.lt_of_not_le hik)
      have hle : x_edge x bins (i + 1) ≤ x_edge x bins k := x_edge_mono x hx bins hik'
      simp [bin_mem, not_lt.mpr hle]
  have hmin : bin_mem x bins i (x_min x) = false := by
    have := hedge 0 (Nat.zero_le bins)
    rwa [x_edge_zero] at this
  have hmax : bin_mem x bins i (x_max x) = false := by
    have := hedge bins (Nat.le_refl bins)
    rwa [x_edge_last x bins hb] at this
  refine ⟨hedge j hj, hmin, hmax, ?_⟩
  intro p hp
  have hpmem := List.of_mem_filter hp
  constructor
  · intro hpe
    rw [hpe, hmin] at hpmem
    cases hpmem
  · intro hpe
    rw [hpe, hmax] at hpmem
    cases hpmem

/-- Witness for C8 on `x = [0, 1, 2, 4]`, `y = x`, two bins, bin 0 and
edge 1. -/
theorem mean_median_bins_strict_edges_witness :
    (([0, 1, 2, 4] : List ℚ) ≠ [] ∧ 0 < 2 ∧ 0 < 2 ∧ 1 ≤ 2) ∧
    (bin_mem [0, 1, 2, 4] 2 0 (x_edge [0, 1, 2, 4] 2 1) = false ∧
      bin_mem [0, 1, 2, 4] 2 0 (x_min [0, 1, 2, 4]) = false ∧
      bin_mem [0, 1, 2, 4] 2 0 (x_max [0, 1, 2, 4]) = false ∧
      ∀ p ∈ (([0, 1, 2, 4] : List ℚ).zip ([0, 1, 2, 4] : List ℚ)).filter
          (fun p => bin_mem [0, 1, 2, 4] 2 0 p.1),
        p.1 ≠ x_min [0, 1, 2, 4] ∧ p.1 ≠ x_max [0, 1, 2, 4]) :=
  ⟨⟨by simp, by norm_num, by norm_num, by norm_num⟩,
    mean_median_bins_strict_edges [0, 1, 2, 4] [0, 1, 2, 4] 2 0 1
      (by simp) (by norm_num) (by norm_num) (by norm_num)⟩

/-- Helper: the dot product is symmetric. -/
theorem dot3_comm (a b : Fin 3 → ℝ) : dot3 a b = dot3 b a := by
  unfold dot3; ring

/-- Helper: a dot square is nonnegative. -/
theorem dot3_self_nonneg (a : Fin 3 → ℝ) : 0 ≤ dot3 a a := by
  unfold dot3
  nlinarith [sq_nonneg (a 0), sq_nonneg (a 1), sq_nonneg (a 2)]

/-- Helper: a cross product is orthogonal to its first factor. -/
theorem dot3_cross3_left (a b : Fin 3 → ℝ) : dot3 (cross3 a b) a = 0 := by
  simp [dot3, cross3]
  ring

/-- Helper: a cross product is orthogonal to its second factor. -/
theorem dot3_cross3_right (a b : Fin 3 → ℝ) : dot3 (cross3 a b) b = 0 := by
  simp [dot3, cross3]
  ring

/-- Helper: the Lagrange identity for the squared cross product. -/
theorem dot3_cross3_self (a b : Fin 3 → ℝ) :
    dot3 (cross3 a b) (cross3 a b) = dot3 a a * dot3 b b - dot3 a b ^ 2 := by
  simp [dot3, cross3]
  ring

/-- Helper: the square of the Euclidean norm. -/
theorem norm3_sq (a : Fin 3 → ℝ) : norm3 a * norm3 a = dot3 a a :=
  Real.mul_self_sqrt (dot3_self_nonneg a)

/-- Helper: dot product with a vector scaled down on the left. -/
theorem dot3_div_left (w b : Fin 3 → ℝ) (s : ℝ) :
    dot3 (fun i => w i / s) b = dot3 w b / s := by
  unfold dot3
  ring

/-- Helper: dot product with a vector scaled down on the right. -/
theorem dot3_div_right (w b : Fin 3 → ℝ) (s : ℝ) :
    dot3 w (fun i => b i / s) = dot3 w b / s := by
  unfold dot3
  ring

/-- Helper: dot product of two scaled-down vectors. -/
theorem dot3_div_div (w : Fin 3 → ℝ) (s : ℝ) :
    dot3 (fun i => w i / s) (fun i => w i / s) = dot3 w w / (s * s) := by
  unfold dot3
  ring

/-- Helper: normalizing on the left of a dot product divides it by the
norm. -/
theorem dot3_normalize_left (a b : Fin 3 → ℝ) :
    dot3 (normalize3 a) b = dot3 a b / norm3 a :=
  dot3_div_left a b (norm3 a)

/-- Helper: normalizing on the right of a dot product divides it by the
norm. -/
theorem dot3_normalize_right (a b : Fin 3 → ℝ) :
    dot3 a (normalize3 b) = dot3 a b / norm3 b :=
  dot3_div_right a b (norm3 b)

/-- Helper: a vector with nonzero dot square normalizes to a unit vector. -/
theorem dot3_normalize_self (a : Fin 3 → ℝ) (ha : dot3 a a ≠ 0) :
    dot3 (normalize3 a) (normalize3 a) = 1 := by
  unfold normalize3
  rw [dot3_div_div, norm3_sq]
  exact div_self ha

/-- Helper: the cross product scales with the first factor. -/
theorem cross3_normalize_left (b r : Fin 3 → ℝ) :
    cross3 (normalize3 b) r = fun i => cross3 b r i / norm3 b := by
  funext i
  fin_cases i <;> (simp [cross3, normalize3]; ring)

/-- Helper: the squared cross product of a normalized vector with an
auxiliary axis, in terms of the raw vectors. -/
theorem cross3_triad_x_dot (b a : Fin 3 → ℝ) :
    dot3 (cross3 (triad_x b) a) (cross3 (triad_x b) a)
      = (dot3 b b * dot3 a a - dot3 b a ^ 2) / dot3 b b := by
  unfold triad_x
  rw [cross3_normalize_left, dot3_div_div, norm3_sq, dot3_cross3_self]

/-- Helper: a matrix of pairwise orthonormal rows is orthogonal. -/
theorem rowMat_mul_transpose_eq_one (x y z : Fin 3 → ℝ)
    (hxx : dot3 x x = 1) (hyy : dot3 y y = 1) (hzz : dot3 z z = 1)
    (hxy : dot3 x y = 0) (hxz : dot3 x z = 0) (hyz : dot3 y z = 0) :
    rowMat x y z * (rowMat x y z).transpose = 1 := by
  unfold dot3 at hxx hyy hzz hxy hxz hyz
  ext i j
  rw [Matrix.mul_apply]
  fin_cases i <;> fin_cases j <;>
    simp [rowMat, Matrix.transpose_apply, Fin.sum_univ_three, Matrix.one_apply] <;>
    linarith [hxx, hyy, hzz, hxy, hxz, hyz]

/-- Helper: conjugating by an orthogonal matrix preserves the trace. -/
theorem trace_rotate_step (r p : Matrix (Fin 3) (Fin 3) ℝ)
    (h : r * r.transpose = 1) : (rotate_step r p).trace = p.trace := by
  unfold rotate_step
  have h' : r.transpose * r = 1 := Matrix.mul_eq_one_comm.mp h
  rw [Matrix.trace_mul_comm, ← Matrix.mul_assoc, h', Matrix.one_mul]

/-- Helper: the triad built from `b` and axis `a` has orthonormal rows
when `b` is nonzero and not parallel to `a`. -/
theorem triad_orthonormal (b a : Fin 3 → ℝ) (hb : dot3 b b ≠ 0)
    (hc : dot3 (cross3 (triad_x b) a) (cross3 (triad_x b) a) ≠ 0) :
    dot3 (triad_x b) (triad_x b) = 1 ∧
    dot3 (triad_y b a) (triad_y b a) = 1 ∧
    dot3 (triad_z b a) (triad_z b a) = 1 ∧
    dot3 (triad_x b) (triad_y b a) = 0 ∧
    dot3 (triad_x b) (triad_z b a) = 0 ∧
    dot3 (triad_y b a) (triad_z b a) = 0 := by
  have hu : dot3 (triad_x b) (triad_x b) = 1 := dot3_normalize_self b hb
  have hz : dot3 (triad_z b a) (triad_z b a) = 1 := dot3_normalize_self _ hc
  have hux : dot3 (triad_x b) (triad_z b a) = 0 := by
    unfold triad_z
    rw [dot3_normalize_right, dot3_comm, dot3_cross3_left, zero_div]
  have hw : dot3 (cross3 (triad_z b a) (triad_x b)) (cross3 (triad_z b a) (triad_x b)) = 1 := by
    rw [dot3_cross3_self, hz, hu, dot3_comm, hux]
    ring
  have hy : dot3 (triad_y b a) (triad_y b a) = 1 := by
    unfold triad_y
    exact dot3_normalize_self _ (by rw [hw]; exact one_ne_zero)
  have hxy : dot3 (triad_x b) (triad_y b a) = 0 := by
    unfold triad_y
    rw [dot3_normalize_right, dot3_comm (triad_x b), dot3_cross3_right, zero_div]
  have hyz : dot3 (triad_y b a) (triad_z b a) = 0 := by
    unfold triad_y
    rw [dot3_normalize_left, dot3_cross3_left, zero_div]
  exact ⟨hu, hy, hz, hxy, hux, hyz⟩

/-- Helper: a matrix with orthonormal rows preserves the sum of squared
dot products — the component form of `Mᵀ M = 1`. -/
theorem dot3_sq_sum_of_cols (x y z v : Fin 3 → ℝ)
    (h : (rowMat x y z).transpose * rowMat x y z = 1) :
    dot3 x v ^ 2 + dot3 y v ^ 2 + dot3 z v ^ 2 = dot3 v v := by
  have e : ∀ i j : Fin 3, x i * x j + y i * y j + z i * z j
      = (1 : Matrix (Fin 3) (Fin 3) ℝ) i j := by
    intro i j
    have h1 : ((rowMat x y z).transpose * rowMat x y z) i j
        = (1 : Matrix (Fin 3) (Fin 3) ℝ) i j := by rw [h]
    rw [Matrix.mul_apply] at h1
    rw [← h1]
    fin_cases i <;> fin_cases j <;>
      simp [rowMat, Matrix.transpose_apply, Fin.sum_univ_three]
  have e00 : x 0 * x 0 + y 0 * y 0 + z 0 * z 0 = 1 := by
    simpa [Matrix.one_apply] using e 0 0
  have e11 : x 1 * x 1 + y 1 * y 1 + z 1 * z 1 = 1 := by
    simpa [Matrix.one_apply] using e 1 1
  have e22 : x 2 * x 2 + y 2 * y 2 + z 2 * z 2 = 1 := by
    simpa [Matrix.one_apply] using e 2 2
  have e01 : x 0 * x 1 + y 0 * y 1 + z 0 * z 1 = 0 := by
    simpa [Matrix.one_apply] using e 0 1
  have e02 : x 0 * x 2 + y 0 * y 2 + z 0 * z 2 = 0 := by
    simpa [Matrix.one_apply] using e 0 2
  have e12 : x 1 * x 2 + y 1 * y 2 + z 1 * z 2 = 0 := by
    simpa [Matrix.one_apply] using e 1 2
  unfold dot3
  linear_combination (v 0 * v 0) * e00 + (v 1 * v 1) * e11 + (v 2 * v 2) * e22 +
    (2 * v 0 * v 1) * e01 + (2 * v 0 * v 2) * e02 + (2 * v 1 * v 2) * e12

/-- Helper: the field-aligned auxiliary-axis cross product is nonzero when
the base vector has a component off that axis. -/
theorem triad_cross_e1_ne_zero (b : Fin 3 → ℝ) (hb : dot3 b b ≠ 0)
    (hbx : b 1 ≠ 0 ∨ b 2 ≠ 0) :
    dot3 (cross3 (triad_x b) ![1, 0, 0]) (cross3 (triad_x b) ![1, 0, 0]) ≠ 0 := by
  rw [cross3_triad_x_dot]
  apply div_ne_zero _ hb
  have he1 : dot3 ![(1 : ℝ), 0, 0] ![(1 : ℝ), 0, 0] = 1 := by norm_num [dot3]
  have hb1 : dot3 b ![(1 : ℝ), 0, 0] = b 0 := by norm_num [dot3]
  rw [he1, hb1]
  have hpos : 0 < b 1 * b 1 + b 2 * b 2 := by
    rcases hbx with h | h
    · nlinarith [mul_self_pos.mpr h, mul_self_nonneg (b 2)]
    · nlinarith [mul_self_pos.mpr h, mul_self_nonneg (b 1)]
  intro heq
  unfold dot3 at heq
  nlinarith [hpos]

/-- Helper: the user-defined-axis cross product is nonzero when the base
vector has a component off the y axis. -/
theorem triad_cross_e2_ne_zero (v : Fin 3 → ℝ) (hv : dot3 v v ≠ 0)
    (hvy : v 0 ≠ 0 ∨ v 2 ≠ 0) :
    dot3 (cross3 (triad_x v) ![0, 1, 0]) (cross3 (triad_x v) ![0, 1, 0]) ≠ 0 := by
  rw [cross3_triad_x_dot]
  apply div_ne_zero _ hv
  have he2 : dot3 ![(0 : ℝ), 1, 0] ![(0 : ℝ), 1, 0] = 1 := by norm_num [dot3]
  have hv1 : dot3 v ![(0 : ℝ), 1, 0] = v 1 := by norm_num [dot3]
  rw [he2, hv1]
  have hpos : 0 < v 0 * v 0 + v 2 * v 2 := by
    rcases hvy with h | h
    · nlinarith [mul_self_pos.mpr h, mul_self_nonneg (v 2)]
    · nlinarith [mul_self_pos.mpr h, mul_self_nonneg (v 0)]
  intro heq
  unfold dot3 at heq
  nlinarith [hpos]

/-- Helper: a triad matrix is orthogonal. -/
theorem triad_rowMat_orthogonal (b a : Fin 3 → ℝ) (hb : dot3 b b ≠ 0)
    (hc : dot3 (cross3 (triad_x b) a) (cross3 (triad_x b) a) ≠ 0) :
    rowMat (triad_x b) (triad_y b a) (triad_z b a)
      * (rowMat (triad_x b) (triad_y b a) (triad_z b a)).transpose = 1 := by
  obtain ⟨h1, h2, h3, h4, h5, h6⟩ := triad_orthonormal b a hb hc
  exact rowMat_mul_transpose_eq_one _ _ _ h1 h2 h3 h4 h5 h6

/-- C6 (amended): `rotate_tensor` preserves the trace for the
field-aligned flag (background field nonzero and not parallel to the x
axis), the user-defined flag with a single direction vector (nonzero and
not parallel to the y axis), the user-defined flag with three mutually
orthogonal nonzero direction vectors, and the secondary `pp` and `qq`
rotations. -/
theorem rotate_tensor_trace_preserved (b v v1 v2 v3 : Fin 3 → ℝ)
    (P : Matrix (Fin 3) (Fin 3) ℝ) (θ : ℝ)
    (hb : dot3 b b ≠ 0) (hbx : b 1 ≠ 0 ∨ b 2 ≠ 0)
    (hv : dot3 v v ≠ 0) (hvy : v 0 ≠ 0 ∨ v 2 ≠ 0)
    (h11 : dot3 v1 v1 ≠ 0) (h22 : dot3 v2 v2 ≠ 0) (h33 : dot3 v3 v3 ≠ 0)
    (h12 : dot3 v1 v2 = 0) (h13 : dot3 v1 v3 = 0) (h23 : dot3 v2 v3 = 0) :
    (rotate_step (fac_rot_mat b) P).trace = P.trace ∧
    (rotate_step (rot_single_mat v) P).trace = P.trace ∧
    (rotate_step (rot_three_mat v1 v2 v3) P).trace = P.trace ∧
    (rotate_step (pp_rot θ) P).trace = P.trace ∧
    (rotate_step (qq_rot θ) P).trace = P.trace := by
  refine ⟨?_, ?_, ?_, ?_, ?_⟩
  · exact trace_rotate_step _ P
      (triad_rowMat_orthogonal b ![1, 0, 0] hb (triad_cross_e1_ne_zero b hb hbx))
  · exact trace_rotate_step _ P
      (triad_rowMat_orthogonal v ![0, 1, 0] hv (triad_cross_e2_ne_zero v hv hvy))
  · refine trace_rotate_step _ P ?_
    unfold rot_three_mat
    refine rowMat_mul_transpose_eq_one _ _ _ (dot3_normalize_self v1 h11)
      (dot3_normalize_self v2 h22) (dot3_normalize_self v3 h33) ?_ ?_ ?_
    · rw [dot3_normalize_left, dot3_normalize_right, h12, zero_div, zero_div]
    · rw [dot3_normalize_left, dot3_normalize_right, h13, zero_div, zero_div]
    · rw [dot3_normalize_left, dot3_normalize_right, h23, zero_div, zero_div]
  · refine trace_rotate_step _ P ?_
    ext i j
    rw [Matrix.mul_apply]
    fin_cases i <;> fin_cases j <;>
      simp [pp_rot, Matrix.transpose_apply, Fin.sum_univ_three, Matrix.one_apply] <;>
      nlinarith [Real.sin_sq_add_cos_sq θ]
  · refine trace_rotate_step _ P ?_
    ext i j
    rw [Matrix.mul_apply]
    fin_cases i <;> fin_cases j <;>
      simp [qq_rot, Matrix.transpose_apply, Fin.sum_univ_three, Matrix.one_apply] <;>
      nlinarith [Real.sin_sq_add_cos_sq θ]

/-- C6 (counterexample): the user-defined rotation with three well-formed
unit direction vectors that are not mutually orthogonal —
`[1, 0, 0]`, `[3/5, 4/5, 0]`, `[0, 0, 1]` — does not preserve the trace:
on the tensor with a single 1 in the (0, 0) entry the output trace is
`34/25`, not `1`. -/
theorem rotate_tensor_three_vector_counterexample :
    (rotate_step (rot_three_mat ![1, 0, 0] ![3 / 5, 4 / 5, 0] ![0, 0, 1]) p_xx).trace
      ≠ p_xx.trace := by
  have ha1 : norm3 ![(1 : ℝ), 0, 0] = 1 := by
    have harg : dot3 ![(1 : ℝ), 0, 0] ![(1 : ℝ), 0, 0] = 1 := by norm_num [dot3]
    unfold norm3
    rw [harg, Real.sqrt_one]
  have ha2 : norm3 ![(3 / 5 : ℝ), 4 / 5, 0] = 1 := by
    have harg : dot3 ![(3 / 5 : ℝ), 4 / 5, 0] ![(3 / 5 : ℝ), 4 / 5, 0] = 1 := by
      norm_num [dot3]
    unfold norm3
    rw [harg, Real.sqrt_one]
  have ha3 : norm3 ![(0 : ℝ), 0, 1] = 1 := by
    have harg : dot3 ![(0 : ℝ), 0, 1] ![(0 : ℝ), 0, 1] = 1 := by norm_num [dot3]
    unfold norm3
    rw [harg, Real.sqrt_one]
  have h1 : normalize3 ![(1 : ℝ), 0, 0] = ![1, 0, 0] := by
    funext i
    fin_cases i <;> simp [normalize3, ha1]
  have h2 : normalize3 ![(3 / 5 : ℝ), 4 / 5, 0] = ![3 / 5, 4 / 5, 0] := by
    funext i
    fin_cases i <;> simp [normalize3, ha2]
  have h3 : normalize3 ![(0 : ℝ), 0, 1] = ![0, 0, 1] := by
    funext i
    fin_cases i <;> simp [normalize3, ha3]
  unfold rot_three_mat rotate_step
  rw [h1, h2, h3]
  have hval : (rowMat ![(1 : ℝ), 0, 0] ![3 / 5, 4 / 5, 0] ![0, 0, 1] * p_xx *
      (rowMat ![(1 : ℝ), 0, 0] ![3 / 5, 4 / 5, 0] ![0, 0, 1]).transpose).trace
      = 34 / 25 := by
    simp only [Matrix.trace, Matrix.diag, Matrix.mul_apply, Matrix.transpose_apply,
      Fin.sum_univ_three, rowMat, p_xx, Matrix.of_apply, Matrix.cons_val_zero,
      Matrix.cons_val_one, Matrix.head_cons, Matrix.cons_val_two, Matrix.tail_cons]
    norm_num
  rw [hval]
  have hp : p_xx.trace = 1 := by
    simp only [Matrix.trace, Matrix.diag, Fin.sum_univ_three, p_xx, Matrix.of_apply,
      Matrix.cons_val_zero, Matrix.cons_val_one, Matrix.head_cons, Matrix.cons_val_two,
      Matrix.tail_cons]
    norm_num
  rw [hp]
  norm_num

/-- Witness for C6: the amended trace preservation at the concrete field
`[0, 1, 0]`, single vector `[1, 0, 0]`, the standard basis as the three
orthogonal vectors, angle 0, and the tensor `p_xx`. -/
theorem rotate_tensor_trace_preserved_witness :
    (rotate_step (fac_rot_mat ![(0 : ℝ), 1, 0]) p_xx).trace = p_xx.trace ∧
    (rotate_step (rot_single_mat ![(1 : ℝ), 0, 0]) p_xx).trace = p_xx.trace ∧
    (rotate_step (rot_three_mat ![(1 : ℝ), 0, 0] ![(0 : ℝ), 1, 0] ![(0 : ℝ), 0, 1])
        p_xx).trace = p_xx.trace ∧
    (rotate_step (pp_rot 0) p_xx).trace = p_xx.trace ∧
    (rotate_step (qq_rot 0) p_xx).trace = p_xx.trace :=
  rotate_tensor_trace_preserved ![0, 1, 0] ![1, 0, 0] ![1, 0, 0] ![0, 1, 0] ![0, 0, 1]
    p_xx 0 (by norm_num [dot3]) (Or.inl (by norm_num)) (by norm_num [dot3])
    (Or.inl (by norm_num)) (by norm_num [dot3]) (by norm_num [dot3])
    (by norm_num [dot3]) (by norm_num [dot3]) (by norm_num [dot3]) (by norm_num [dot3])

/-- C7: `convert_fac` maps each 3-component sample by an orthonormal
basis — for a nonzero background field and a position vector not parallel
to it, the third output component is the dot product of the input with the
unit background field, and the Euclidean norm of the output equals the
Euclidean norm of the input. -/
theorem convert_fac_third_component_and_norm (v b r : Fin 3 → ℝ)
    (hb : dot3 b b ≠ 0) (hr : dot3 (cross3 b r) (cross3 b r) ≠ 0) :
    convert_fac v b r 2 = dot3 v (fac_basis_par b) ∧
    dot3 (convert_fac v b r) (convert_fac v b r) = dot3 v v ∧
    norm3 (convert_fac v b r) = norm3 v := by
  have hu : dot3 (fac_basis_par b) (fac_basis_par b) = 1 := dot3_normalize_self b hb
  have hcu : cross3 (fac_basis_par b) r = fun i => cross3 b r i / norm3 b :=
    cross3_normalize_left b r
  have hcc : dot3 (cross3 (fac_basis_par b) r) (cross3 (fac_basis_par b) r)
      = dot3 (cross3 b r) (cross3 b r) / dot3 b b := by
    rw [hcu, dot3_div_div, norm3_sq]
  have hc : dot3 (cross3 (fac_basis_par b) r) (cross3 (fac_basis_par b) r) ≠ 0 := by
    rw [hcc]
    exact div_ne_zero hr hb
  have hyy : dot3 (fac_basis_y b r) (fac_basis_y b r) = 1 := dot3_normalize_self _ hc
  have hyu : dot3 (fac_basis_y b r) (fac_basis_par b) = 0 := by
    unfold fac_basis_y
    rw [dot3_normalize_left, dot3_cross3_left, zero_div]
  have hcb0 : dot3 (cross3 (fac_basis_par b) r) b = 0 := by
    rw [hcu, dot3_div_left, dot3_cross3_left, zero_div]
  have hyb : dot3 (fac_basis_y b r) b = 0 := by
    unfold fac_basis_y
    rw [dot3_normalize_left, hcb0, zero_div]
  have hcrosssq : dot3 (cross3 (fac_basis_y b r) b) (cross3 (fac_basis_y b r) b)
      = dot3 b b := by
    rw [dot3_cross3_self, hyy, hyb]
    ring
  have hxx : dot3 (fac_basis_x b r) (fac_basis_x b r) = 1 := by
    unfold fac_basis_x
    refine dot3_normalize_self _ ?_
    rw [hcrosssq]
    exact hb
  have hxy : dot3 (fac_basis_x b r) (fac_basis_y b r) = 0 := by
    unfold fac_basis_x
    rw [dot3_normalize_left, dot3_cross3_left, zero_div]
  have hcrosspar : dot3 (cross3 (fac_basis_y b r) b) (fac_basis_par b) = 0 := by
    rw [show fac_basis_par b = normalize3 b from rfl, dot3_normalize_right,
      dot3_cross3_right, zero_div]
  have hxu : dot3 (fac_basis_x b r) (fac_basis_par b) = 0 := by
    unfold fac_basis_x
    rw [dot3_normalize_left, hcrosspar, zero_div]
  have hM := rowMat_mul_transpose_eq_one (fac_basis_x b r) (fac_basis_y b r)
    (fac_basis_par b) hxx hyy hu hxy hxu hyu
  have hsum := dot3_sq_sum_of_cols (fac_basis_x b r) (fac_basis_y b r)
    (fac_basis_par b) v (Matrix.mul_eq_one_comm.mp hM)
  have h2 : convert_fac v b r 2 = dot3 (fac_basis_par b) v := by
    simp [convert_fac]
  have hd : dot3 (convert_fac v b r) (convert_fac v b r)
      = dot3 (fac_basis_x b r) v ^ 2 + dot3 (fac_basis_y b r) v ^ 2 +
        dot3 (fac_basis_par b) v ^ 2 := by
    simp [convert_fac, dot3]
    ring
  refine ⟨by rw [h2, dot3_comm], by rw [hd, hsum], ?_⟩
  unfold norm3
  rw [hd, hsum]

/-- Witness for C7 at the field `[1, 0, 0]`, the position `[0, 1, 0]` and
the sample `[1, 2, 3]`. -/
theorem convert_fac_third_component_and_norm_witness :
    convert_fac ![(1 : ℝ), 2, 3] ![1, 0, 0] ![0, 1, 0] 2
        = dot3 ![(1 : ℝ), 2, 3] (fac_basis_par ![1, 0, 0]) ∧
    dot3 (convert_fac ![(1 : ℝ), 2, 3] ![1, 0, 0] ![0, 1, 0])
        (convert_fac ![(1 : ℝ), 2, 3] ![1, 0, 0] ![0, 1, 0])
      = dot3 ![(1 : ℝ), 2, 3] ![(1 : ℝ), 2, 3] ∧
    norm3 (convert_fac ![(1 : ℝ), 2, 3] ![1, 0, 0] ![0, 1, 0])
      = norm3 ![(1 : ℝ), 2, 3] :=
  convert_fac_third_component_and_norm ![1, 2, 3] ![1, 0, 0] ![0, 1, 0]
    (by norm_num [dot3]) (by norm_num [dot3, cross3])

end Pyrfu
